import Mathlib

/-
Verification of image-date-organizer: a shallow embedding of the
organizer, its verified copier, the date extractors and the hashing
utility, together with proofs of the specified properties.

Files embedded:
  - src/image_date_organizer/utils.py          (sha256_file)
  - src/src/image_date_organizer/organize.py   (Organizer, verify_copy,
                                                create_date_path, is_image, is_mp4)
  - src/src/image_date_organizer/extractors.py (RegexExtractor, ExifImageExtractor)

External collaborators (hashlib, shutil.copy2, the regex engine, pendulum,
PIL, libmagic, the OS filesystem) are modelled by their documented
interface contracts: the filesystem is an explicit association-list state,
hashlib.sha256 is a full SHA-256 implementation over byte lists, and the
parsing libraries are parameters of the embedded functions.
-/

namespace ImageDateOrganizer

/-! ## SHA-256 (model of hashlib.sha256, FIPS 180-4) -/

/-- Right rotation of a 32-bit word represented as a `Nat` below `2 ^ 32`. -/
def rotr (x n : Nat) : Nat := (x >>> n) ||| ((x <<< (32 - n)) % 4294967296)

def bigSigma0 (x : Nat) : Nat := rotr x 2 ^^^ rotr x 13 ^^^ rotr x 22

def bigSigma1 (x : Nat) : Nat := rotr x 6 ^^^ rotr x 11 ^^^ rotr x 25

def smallSigma0 (x : Nat) : Nat := rotr x 7 ^^^ rotr x 18 ^^^ (x >>> 3)

def smallSigma1 (x : Nat) : Nat := rotr x 17 ^^^ rotr x 19 ^^^ (x >>> 10)

def chF (x y z : Nat) : Nat := (x &&& y) ^^^ ((x ^^^ 4294967295) &&& z)

def majF (x y z : Nat) : Nat := (x &&& y) ^^^ (x &&& z) ^^^ (y &&& z)

/-- The eight 32-bit words of the SHA-256 hash state. -/
structure Sha256State where
  a : Nat
  b : Nat
  c : Nat
  d : Nat
  e : Nat
  f : Nat
  g : Nat
  h : Nat
deriving DecidableEq

def sha256K : List Nat :=
  [1116352408, 1899447441, 3049323471, 3921009573, 961987163,
   1508970993, 2453635748, 2870763221, 3624381080, 310598401,
   607225278, 1426881987, 1925078388, 2162078206, 2614888103,
   3248222580, 3835390401, 4022224774, 264347078, 604807628,
   770255983, 1249150122, 1555081692, 1996064986, 2554220882,
   2821834349, 2952996808, 3210313671, 3336571891, 3584528711,
   113926993, 338241895, 666307205, 773529912, 1294757372,
   1396182291, 1695183700, 1986661051, 2177026350, 2456956037,
   2730485921, 2820302411, 3259730800, 3345764771, 3516065817,
   3600352804, 4094571909, 275423344, 430227734, 506948616,
   659060556, 883997877, 958139571, 1322822218, 1537002063,
   1747873779, 1955562222, 2024104815, 2227730452, 2361852424,
   2428436474, 2756734187, 3204031479, 3329325298]

def sha256Init : Sha256State :=
  ⟨1779033703, 3144134277, 1013904242, 2773480762,
   1359893119, 2600822924, 528734635, 1541459225⟩

/-- One round of the SHA-256 compression loop; the pair carries the
message-schedule word and the round constant. -/
def roundStep (st : Sha256State) (wk : Nat × Nat) : Sha256State :=
  let t1 := (st.h + bigSigma1 st.e + chF st.e st.f st.g + wk.2 + wk.1) % 4294967296
  let t2 := (bigSigma0 st.a + majF st.a st.b st.c) % 4294967296
  ⟨(t1 + t2) % 4294967296, st.a, st.b, st.c,
   (st.d + t1) % 4294967296, st.e, st.f, st.g⟩

/-- Extend the message schedule by one word. -/
def scheduleStep (w : List Nat) : List Nat :=
  let n := w.length
  w ++ [(smallSigma1 (w.getD (n - 2) 0) + w.getD (n - 7) 0 +
         smallSigma0 (w.getD (n - 15) 0) + w.getD (n - 16) 0) % 4294967296]

def schedule : Nat → List Nat → List Nat
  | 0, w => w
  | n + 1, w => schedule n (scheduleStep w)

/-- Compress one 16-word block into the running state. -/
def compressBlock (st : Sha256State) (block : List Nat) : Sha256State :=
  let w := schedule 48 block
  let fin := List.foldl roundStep st (w.zip sha256K)
  ⟨(st.a + fin.a) % 4294967296, (st.b + fin.b) % 4294967296,
   (st.c + fin.c) % 4294967296, (st.d + fin.d) % 4294967296,
   (st.e + fin.e) % 4294967296, (st.f + fin.f) % 4294967296,
   (st.g + fin.g) % 4294967296, (st.h + fin.h) % 4294967296⟩

/-- The message length in bits as eight big-endian bytes. -/
def lenBytes (n : Nat) : List Nat :=
  [(n >>> 56) % 256, (n >>> 48) % 256, (n >>> 40) % 256, (n >>> 32) % 256,
   (n >>> 24) % 256, (n >>> 16) % 256, (n >>> 8) % 256, n % 256]

/-- SHA-256 padding: a 0x80 byte, zeros, and the 64-bit message length. -/
def padMsg (msg : List Nat) : List Nat :=
  msg ++ 128 :: (List.replicate ((64 - (msg.length + 9) % 64) % 64) 0 ++
    lenBytes (8 * msg.length))

/-- Group bytes into 32-bit big-endian words. -/
def toWords : List Nat → List Nat
  | b1 :: b2 :: b3 :: b4 :: rest =>
    ((b1 % 256) * 16777216 + (b2 % 256) * 65536 + (b3 % 256) * 256 + b4 % 256)
      :: toWords rest
  | _ => []

/-- Split a word list into blocks of 16; the first argument is fuel, which
is sufficient whenever it exceeds the number of blocks. -/
def toBlocks : Nat → List Nat → List (List Nat)
  | 0, _ => []
  | _, [] => []
  | n + 1, ws => ws.take 16 :: toBlocks n (ws.drop 16)

/-- The final SHA-256 state for a byte-list message. -/
def sha256Words (msg : List Nat) : Sha256State :=
  let ws := toWords (padMsg msg)
  List.foldl compressBlock sha256Init (toBlocks (ws.length + 1) ws)

def wordBytes (w : Nat) : List Nat :=
  [(w >>> 24) % 256, (w >>> 16) % 256, (w >>> 8) % 256, w % 256]

def bytesOfState (st : Sha256State) : List Nat :=
  wordBytes st.a ++ wordBytes st.b ++ wordBytes st.c ++ wordBytes st.d ++
  wordBytes st.e ++ wordBytes st.f ++ wordBytes st.g ++ wordBytes st.h

def hexTable : List Char := "0123456789abcdef".data

def hexDigit (n : Nat) : Char := hexTable.getD (n % 16) '0'

def byteHex (b : Nat) : List Char := [hexDigit (b / 16), hexDigit b]

def hexOfBytes : List Nat → List Char
  | [] => []
  | b :: rest => byteHex b ++ hexOfBytes rest

/-- Lowercase hexadecimal SHA-256 digest of a byte list; this is the model
of `hashlib.sha256(data).hexdigest()`. -/
def sha256Hex (msg : List Nat) : String :=
  String.mk (hexOfBytes (bytesOfState (sha256Words msg)))

/-! ## sha256_file (src/image_date_organizer/utils.py)

The Python function streams a file in chunks through a hashlib hasher:

    hasher = hashlib.sha256()
    with path.open("rb") as handle:
        while True:
            data = handle.read(chunksize)
            if not data:
                break
            hasher.update(data)
    return hasher.hexdigest()

The open file handle is modelled by the list of bytes still unread;
`handle.read(chunksize)` returns the next `chunksize` bytes.  A hashlib
hasher digests the concatenation of all bytes passed to `update`, so the
hasher state is the accumulated byte list.  The fuel argument of the loop
is one more than the remaining bytes, which bounds the number of
iterations whenever the chunk size is positive. -/

/-- The read-update loop of `sha256_file`: returns the bytes accumulated
in the hasher. -/
def readLoop : Nat → Nat → List Nat → List Nat → List Nat
  | 0, _, _, acc => acc
  | fuel + 1, chunksize, rem, acc =>
    let data := rem.take chunksize
    if data.isEmpty then acc
    else readLoop fuel chunksize (rem.drop chunksize) (acc ++ data)

/-- Model of `sha256_file`: the file's byte content stands for the path
argument. -/
def sha256_file (content : List Nat) (chunksize : Nat) : String :=
  sha256Hex (readLoop (content.length + 1) chunksize content [])

/-! ## Filesystem model

Paths are lists of components below an implicit root; the filesystem is an
association list mapping paths to entries (regular files carry their byte
content).  Symlinks and device nodes are not modelled: the organizer
explicitly skips anything that is neither a regular file nor a directory. -/

abbrev FsPath := List String

inductive Entry where
  | file (content : List Nat) : Entry
  | dir : Entry
deriving DecidableEq

def lookupEntries : List (FsPath × Entry) → FsPath → Option Entry
  | [], _ => none
  | (q, e) :: rest, p => if q = p then some e else lookupEntries rest p

def setEntries : List (FsPath × Entry) → FsPath → Entry → List (FsPath × Entry)
  | [], p, e => [(p, e)]
  | (q, e0) :: rest, p, e =>
    if q = p then (p, e) :: rest else (q, e0) :: setEntries rest p e

structure FS where
  entries : List (FsPath × Entry)
deriving DecidableEq

def FS.lookup (fs : FS) (p : FsPath) : Option Entry :=
  lookupEntries fs.entries p

/-- Create or overwrite the entry at `p`. -/
def FS.write (fs : FS) (p : FsPath) (e : Entry) : FS :=
  ⟨setEntries fs.entries p e⟩

def removeEntries : List (FsPath × Entry) → FsPath → List (FsPath × Entry)
  | [], _ => []
  | (q, e) :: rest, p =>
    if q = p then removeEntries rest p else (q, e) :: removeEntries rest p

/-- Remove the entry at `p` (model of `Path.unlink` and `Path.rmdir`). -/
def FS.unlink (fs : FS) (p : FsPath) : FS :=
  ⟨removeEntries fs.entries p⟩

/-- Model of `Path.is_file`. -/
def FS.isFile (fs : FS) (p : FsPath) : Bool :=
  match fs.lookup p with
  | some (.file _) => true
  | _ => false

/-- Model of `Path.is_dir`. -/
def FS.isDir (fs : FS) (p : FsPath) : Bool :=
  match fs.lookup p with
  | some .dir => true
  | _ => false

/-- Model of `Path.exists`. -/
def FS.pathExists (fs : FS) (p : FsPath) : Bool :=
  (fs.lookup p).isSome

/-- Byte content of the regular file at `p` (unused default for non-files). -/
def FS.contentOf (fs : FS) (p : FsPath) : List Nat :=
  match fs.lookup p with
  | some (.file c) => c
  | _ => []

/-- Does `q` extend `p` by exactly one component (an `iterdir` child)? -/
def isChild : FsPath → FsPath → Bool
  | [], [_] => true
  | x :: xs, y :: ys => x == y && isChild xs ys
  | _, _ => false

/-- Does `q` strictly extend `p` (a descendant entry)? -/
def isBelow : FsPath → FsPath → Bool
  | [], [] => false
  | [], _ :: _ => true
  | x :: xs, y :: ys => x == y && isBelow xs ys
  | _ :: _, [] => false

/-- The immediate children of directory `p`, as listed by `iterdir`. -/
def FS.childrenOf (fs : FS) (p : FsPath) : List FsPath :=
  (fs.entries.filter (fun x => isChild p x.1)).map (fun x => x.1)

/-- Does directory `p` have any entry strictly below it? -/
def FS.hasDescendant (fs : FS) (p : FsPath) : Bool :=
  fs.entries.any (fun x => isBelow p x.1)

/-- All nonempty prefixes of a path, shortest first. -/
def pathInits : FsPath → List FsPath
  | [] => []
  | x :: xs => [x] :: (pathInits xs).map (fun q => x :: q)

/-- Add a directory entry at every listed path that has no entry yet. -/
def addMissingDirs (fs : FS) : List FsPath → FS
  | [] => fs
  | q :: rest =>
    addMissingDirs (if (fs.lookup q).isSome then fs else fs.write q .dir) rest

/-- Model of `Path.mkdir(parents=True, exist_ok=True)`: fails when some
prefix of the path is an existing regular file (the OS raises before any
directory is created in that case), otherwise creates every missing
directory along the path. -/
def FS.mkdirParents (fs : FS) (p : FsPath) : Except String FS :=
  if (pathInits p).any fs.isFile then
    .error "NotADirectoryError"
  else
    .ok (addMissingDirs fs (pathInits p))

/-- Last component of a path, the model of `Path.name`. -/
def fileName : FsPath → String
  | [] => ""
  | [x] => x
  | _ :: xs => fileName xs

/-! ## Dates and create_date_path -/

/-- A calendar date as carried by `datetime.date` values.  `datetime.date`
guarantees `1 <= month <= 12` and `1 <= day <= 31`; theorems that rely on
those bounds take them as hypotheses. -/
structure Date where
  year : Nat
  month : Nat
  day : Nat
deriving DecidableEq

/-- Model of `create_date_path`: Python's
`root / Path(str(date.year)) / Path(str(date.month)) / Path(str(date.day))`,
where `str` of an `int` is `Nat.repr`. -/
def create_date_path (root : FsPath) (date : Date) : FsPath :=
  root ++ [Nat.repr date.year, Nat.repr date.month, Nat.repr date.day]

/-- Decimal numeral as the spec words it: the digits of `n` in base ten,
most significant first, with no leading zeros (and `"0"` for zero). -/
def decimalStr (n : Nat) : String :=
  if n = 0 then "0" else String.mk (((Nat.digits 10 n).reverse).map Nat.digitChar)

instance exceptDecEq {α β : Type} [DecidableEq α] [DecidableEq β] :
    DecidableEq (Except α β) := fun a b =>
  match a, b with
  | .error x, .error y =>
    if h : x = y then .isTrue (by rw [h])
    else .isFalse (fun hh => h (Except.error.inj hh))
  | .ok x, .ok y =>
    if h : x = y then .isTrue (by rw [h])
    else .isFalse (fun hh => h (Except.ok.inj hh))
  | .error _, .ok _ => .isFalse (fun hh => Except.noConfusion hh)
  | .ok _, .error _ => .isFalse (fun hh => Except.noConfusion hh)

/-! ## verify_copy (src/src/image_date_organizer/organize.py)

`shutil.copy2` is the platform copy primitive; the bytes it actually
deposits at the destination are an environment parameter `copied`, so that
a faithful copy (`copied` equal to the source content) and a corrupted
copy are both instances.  The function returns the final filesystem next
to its outcome, so that the state at the moment an exception propagates is
visible. -/

def verify_copy_with (fs : FS) (source destination : FsPath)
    (copied : List Nat) : FS × Except String Unit :=
  if fs.isFile source = false then
    (fs, .error "Source must be a file")
  else if fs.isDir destination then
    (fs, .error "Destination may not be a directory")
  else
    let source_sha256 := sha256Hex (fs.contentOf source)
    let fs1 := fs.write destination (.file copied)
    let dest_sha256 := sha256Hex (fs1.contentOf destination)
    if source_sha256 ≠ dest_sha256 then
      let fs2 := if fs1.isFile destination then fs1.unlink destination else fs1
      (fs2, .error "Source' and destination's contents did not match!")
    else
      (fs1, .ok ())

/-- `verify_copy` under a faithful copy primitive: the destination
receives exactly the source bytes. -/
def verify_copy (fs : FS) (source destination : FsPath) : FS × Except String Unit :=
  verify_copy_with fs source destination (fs.contentOf source)

/-! ## Extractors (src/src/image_date_organizer/extractors.py)

An extractor's `extract` either raises or returns an optional date; in the
organizer it is an arbitrary function of the filesystem and the path
(EXIF data, the file name and the mtime are all read through the path).
The two concrete extractors whose control flow the claims describe are
embedded below with their external parsers as parameters. -/

abbrev Extractor := FS → FsPath → Except String (Option Date)

/-- A `RegexExtractor`: `matchGroup` models `pattern.match(name)` followed
by `match.group(1)` (`none` when the pattern does not match), and
`parseFmt` models `pendulum.from_format` with the configured `date_fmt`
(which raises `ValueError` on text that does not fit the format). -/
structure RegexExtractor where
  matchGroup : String → Option String
  parseFmt : String → Except String Date
  ignore_errors : Bool

/-- Model of `RegexExtractor.extract` applied to `path.name`.  The boolean
records whether `logger.exception` ran (the code logs the parse failure
before consulting `ignore_errors`). -/
def RegexExtractor.extract (e : RegexExtractor) (fname : String) :
    Except String (Option Date) × Bool :=
  match e.matchGroup fname with
  | none => (.ok none, false)
  | some captured =>
    match e.parseFmt captured with
    | .ok dt => (.ok (some dt), false)
    | .error msg =>
      if e.ignore_errors then (.ok none, true) else (.error msg, true)

/-- The metadata PIL exposes for an opened image: whether `"exif" in
image.info`, and the value of the `DateTime` tag in `image._getexif()`
when that field is present. -/
structure ExifImage where
  has_exif : Bool
  dateField : Option String

/-- Model of `ExifImageExtractor.extract` for a readable image.
`parseDate` models `pendulum.parse`, which raises on a malformed date
string; the code contains no exception handler around it. -/
def ExifImageExtractor.extract (parseDate : String → Except String Date)
    (img : ExifImage) : Except String (Option Date) :=
  if img.has_exif then
    match img.dateField with
    | some v =>
      match parseDate v with
      | .ok d => .ok (some d)
      | .error msg => .error msg
    | none => .ok none
  else
    .ok none

/-! ## Organizer (src/src/image_date_organizer/organize.py) -/

/-- Classification and extraction read external libraries; `mimeOf`
models `magic.from_file(path, mime=True)` as a function of the file's
byte content. -/
structure Env where
  mimeOf : List Nat → String

/-- Characters of a string before the first `/`; Python's
`mimetype.split("/")[0]`. -/
def firstSegment (s : String) : String :=
  String.mk (s.data.takeWhile (fun c => c ≠ '/'))

/-- Model of `is_image`. -/
def is_image (env : Env) (fs : FS) (p : FsPath) : Bool :=
  firstSegment (env.mimeOf (fs.contentOf p)) == "image"

/-- Model of `is_mp4`. -/
def is_mp4 (env : Env) (fs : FS) (p : FsPath) : Bool :=
  env.mimeOf (fs.contentOf p) == "video/mp4"

structure Organizer where
  image_extractors : List Extractor
  video_extractors : List Extractor
  dry_run : Bool
  remove_source : Bool

/-- Model of `Organizer.__init__`: `remove_source` is forced off whenever
`dry_run` is set. -/
def Organizer.init (image_extractors video_extractors : List Extractor)
    (dry_run remove_source : Bool) : Organizer :=
  ⟨image_extractors, video_extractors, dry_run,
   if dry_run then false else remove_source⟩

/-- Model of `Organizer._extract_file_date`: try the extractors in order,
return the first extraction that is not `None`; an extractor's exception
propagates. -/
def extract_file_date : List Extractor → FS → FsPath → Except String (Option Date)
  | [], _, _ => .ok none
  | e :: rest, fs, path =>
    match e fs path with
    | .error msg => .error msg
    | .ok (some d) => .ok (some d)
    | .ok none => extract_file_date rest fs path

/-- Number of extractors whose `extract` is invoked by
`_extract_file_date` (each loop iteration logs one attempt). -/
def extract_file_date_calls : List Extractor → FS → FsPath → Nat
  | [], _, _ => 0
  | e :: rest, fs, path =>
    match e fs path with
    | .ok none => 1 + extract_file_date_calls rest fs path
    | _ => 1

/-- Model of `Organizer.extract_date`: dispatch on the sniffed content
kind; files that are neither images nor mp4 videos yield no date. -/
def extract_date (env : Env) (org : Organizer) (fs : FS) (path : FsPath) :
    Except String (Option Date) :=
  if is_image env fs path then extract_file_date org.image_extractors fs path
  else if is_mp4 env fs path then extract_file_date org.video_extractors fs path
  else .ok none

/-- Model of `Organizer.organize_file`.  Mirrors the source order: extract
the date, compute the destination, `mkdir` the date directory, skip if the
destination name exists, return early on a dry run, otherwise verified
copy and optional source removal. -/
def organize_file (env : Env) (org : Organizer) (fs : FS)
    (source destination : FsPath) : FS × Except String Unit :=
  match extract_date env org fs source with
  | .error msg => (fs, .error msg)
  | .ok none => (fs, .ok ())
  | .ok (some date) =>
    let dest_dir := create_date_path destination date
    let dest_path := dest_dir ++ [fileName source]
    match fs.mkdirParents dest_dir with
    | .error msg => (fs, .error msg)
    | .ok fs1 =>
      if fs1.pathExists dest_path then
        (fs1, .ok ())
      else if org.dry_run then
        (fs1, .ok ())
      else
        match verify_copy fs1 source dest_path with
        | (fs2, .error msg) => (fs2, .error msg)
        | (fs2, .ok ()) =>
          if org.remove_source && fs2.isFile source then
            (fs2.unlink source, .ok ())
          else
            (fs2, .ok ())

/-- Model of the tolerated `source.rmdir()` after a directory is
processed: a non-empty directory is left in place silently; removing a
missing or non-directory path propagates the OS error. -/
def rmdirTolerant (fs : FS) (p : FsPath) : FS × Except String Unit :=
  if fs.hasDescendant p then
    (fs, .ok ())
  else
    match fs.lookup p with
    | some .dir => (fs.unlink p, .ok ())
    | _ => (fs, .error "FileNotFoundError")

/-- A pending unit of the recursive traversal: a directory to organize, or
the remaining items of one directory's `iterdir` listing. -/
inductive Task where
  | dir (source : FsPath) : Task
  | items (items : List FsPath) : Task

/-- Model of `Organizer.organize_dir`: depth-first recursion over the
tree, each entry routed by its current kind, non-file non-dir entries
skipped; afterwards the source directory is removed when `remove_source`
is set and this is not a dry run.  The fuel models Python's recursion
limit (the source docstring notes the `RuntimeError` on extremely deep
trees); every result below is proved for all fuel values. -/
def organizeLoop (env : Env) (org : Organizer) :
    Nat → FS → Task → FsPath → FS × Except String Unit
  | 0, fs, _, _ => (fs, .error "RuntimeError: maximum recursion depth exceeded")
  | fuel + 1, fs, .dir source, destination =>
    match organizeLoop env org fuel fs (.items (fs.childrenOf source)) destination with
    | (fs1, .error msg) => (fs1, .error msg)
    | (fs1, .ok ()) =>
      if org.remove_source && !org.dry_run then
        rmdirTolerant fs1 source
      else
        (fs1, .ok ())
  | _ + 1, fs, .items [], _ => (fs, .ok ())
  | fuel + 1, fs, .items (item :: rest), destination =>
    let step :=
      if fs.isFile item then organize_file env org fs item destination
      else if fs.isDir item then organizeLoop env org fuel fs (.dir item) destination
      else (fs, .ok ())
    match step with
    | (fs1, .error msg) => (fs1, .error msg)
    | (fs1, .ok ()) => organizeLoop env org fuel fs1 (.items rest) destination

/-- Model of `Organizer.organize_dir` proper. -/
def organize_dir (env : Env) (org : Organizer) (fuel : Nat) (fs : FS)
    (source destination : FsPath) : FS × Except String Unit :=
  organizeLoop env org fuel fs (.dir source) destination

/-- Model of `Organizer.organize`: dispatch on the kind of the source. -/
def organize (env : Env) (org : Organizer) (fuel : Nat) (fs : FS)
    (source destination : FsPath) : FS × Except String Unit :=
  if fs.isFile source then organize_file env org fs source destination
  else if fs.isDir source then organize_dir env org fuel fs source destination
  else (fs, .error "NotImplementedError")

/-! ## Filesystem lemmas -/

theorem lookupEntries_setEntries (l : List (FsPath × Entry)) (p : FsPath)
    (e : Entry) (q : FsPath) :
    lookupEntries (setEntries l p e) q = if p = q then some e else lookupEntries l q := by
  induction l with
  | nil => simp [setEntries, lookupEntries]
  | cons hd tl ih =>
    obtain ⟨a, b⟩ := hd
    by_cases hap : a = p
    · by_cases haq : a = q
      · have hpq : p = q := hap.symm.trans haq
        simp [setEntries, lookupEntries, hap, haq, hpq]
      · have hpq : ¬ p = q := fun h => haq (hap.trans h)
        have hqp : ¬ q = p := fun h => hpq h.symm
        simp [setEntries, lookupEntries, hap, haq, hpq, hqp]
    · by_cases haq : a = q
      · have hpq : ¬ p = q := fun h => hap (h ▸ haq)
        have hqp : ¬ q = p := fun h => hpq h.symm
        simp [setEntries, lookupEntries, hap, haq, hpq, hqp]
      · simp [setEntries, lookupEntries, hap, haq, ih]

theorem lookup_write (fs : FS) (p : FsPath) (e : Entry) (q : FsPath) :
    (fs.write p e).lookup q = if p = q then some e else fs.lookup q :=
  lookupEntries_setEntries fs.entries p e q

theorem lookupEntries_removeEntries (l : List (FsPath × Entry)) (p q : FsPath) :
    lookupEntries (removeEntries l p) q =
      if p = q then none else lookupEntries l q := by
  induction l with
  | nil => simp [removeEntries, lookupEntries]
  | cons hd tl ih =>
    obtain ⟨a, b⟩ := hd
    by_cases hap : a = p
    · by_cases hpq : p = q
      · subst hpq
        simp [removeEntries, lookupEntries, hap, ih]
      · have haq : ¬ a = q := fun h => hpq (hap.symm.trans h)
        simp [removeEntries, lookupEntries, hap, hpq, haq, ih]
    · by_cases haq : a = q
      · have hpq : ¬ p = q := fun h => hap (h ▸ haq)
        have hqp : ¬ q = p := fun h => hpq h.symm
        simp [removeEntries, lookupEntries, hap, haq, hpq, hqp]
      · simp [removeEntries, lookupEntries, hap, haq, ih]

theorem lookup_unlink (fs : FS) (p q : FsPath) :
    (fs.unlink p).lookup q = if p = q then none else fs.lookup q :=
  lookupEntries_removeEntries fs.entries p q

theorem lookup_addMissingDirs_of_some (qs : List FsPath) (fs : FS) (p : FsPath)
    (e : Entry) (h : fs.lookup p = some e) :
    (addMissingDirs fs qs).lookup p = some e := by
  induction qs generalizing fs with
  | nil => exact h
  | cons q rest ih =>
    rw [addMissingDirs]
    cases hq : (fs.lookup q).isSome with
    | true =>
      rw [if_pos rfl]
      exact ih fs h
    | false =>
      rw [if_neg (by decide)]
      apply ih
      rw [lookup_write]
      by_cases hqp : q = p
      · rw [hqp, h] at hq
        exact absurd hq (by simp)
      · simp [hqp, h]

theorem lookup_addMissingDirs_of_none (qs : List FsPath) (fs : FS) (p : FsPath)
    (h : fs.lookup p = none) :
    (addMissingDirs fs qs).lookup p =
      if p ∈ qs then some Entry.dir else none := by
  induction qs generalizing fs with
  | nil => simpa [addMissingDirs]
  | cons q rest ih =>
    rw [addMissingDirs]
    cases hq : (fs.lookup q).isSome with
    | true =>
      rw [if_pos rfl]
      have hpq : ¬ p = q := by
        intro hp
        rw [hp.symm, h] at hq
        exact absurd hq (by simp)
      rw [ih fs h]
      simp [List.mem_cons, hpq]
    | false =>
      rw [if_neg (by decide)]
      by_cases hpq : p = q
      · have hw : (fs.write q Entry.dir).lookup p = some Entry.dir := by
          rw [lookup_write, if_pos hpq.symm]
        rw [lookup_addMissingDirs_of_some rest _ p Entry.dir hw]
        simp [hpq]
      · have hw : (fs.write q Entry.dir).lookup p = none := by
          rw [lookup_write, if_neg (fun hh => hpq hh.symm)]
          exact h
        rw [ih _ hw]
        simp [List.mem_cons, hpq]

theorem addMissingDirs_of_allSome (qs : List FsPath) (fs : FS)
    (h : ∀ q ∈ qs, (fs.lookup q).isSome) :
    addMissingDirs fs qs = fs := by
  induction qs with
  | nil => rfl
  | cons q rest ih =>
    rw [addMissingDirs, if_pos (h q (List.mem_cons_self q rest))]
    exact ih fun r hr => h r (List.mem_cons_of_mem q hr)

theorem lookup_addMissingDirs_isSome (qs : List FsPath) (fs : FS) (p : FsPath)
    (h : p ∈ qs) : ((addMissingDirs fs qs).lookup p).isSome := by
  cases he : fs.lookup p with
  | some e => rw [lookup_addMissingDirs_of_some qs fs p e he]; rfl
  | none => rw [lookup_addMissingDirs_of_none qs fs p he, if_pos h]; rfl

theorem mem_pathInits_length {q p : FsPath} (h : q ∈ pathInits p) :
    q.length ≤ p.length := by
  induction p generalizing q with
  | nil => simp [pathInits] at h
  | cons x xs ih =>
    simp only [pathInits, List.mem_cons, List.mem_map] at h
    rcases h with h | ⟨r, hr, rfl⟩
    · subst h
      simp [Nat.succ_le_succ (Nat.zero_le _)]
    · simpa using Nat.succ_le_succ (ih hr)

theorem mkdirParents_ok {fs fs1 : FS} {p : FsPath}
    (h : fs.mkdirParents p = .ok fs1) :
    fs1 = addMissingDirs fs (pathInits p) ∧
    (pathInits p).any fs.isFile = false := by
  unfold FS.mkdirParents at h
  cases hany : (pathInits p).any fs.isFile with
  | true =>
    rw [hany, if_pos rfl] at h
    exact absurd h (by simp)
  | false =>
    rw [hany, if_neg (by decide)] at h
    injection h with h1
    exact ⟨h1.symm, rfl⟩

/-! ## The relation "only new directories were added" -/

/-- Every path either has the entry it had before, or had none and now has
a directory.  This is the mutation footprint of a dry run: nothing is
deleted or modified, no file is created, only directories may appear. -/
def DirsOnly (fs fs' : FS) : Prop :=
  ∀ p, fs'.lookup p = fs.lookup p ∨
    (fs.lookup p = none ∧ fs'.lookup p = some Entry.dir)

theorem dirsOnly_refl (fs : FS) : DirsOnly fs fs := fun _ => Or.inl rfl

theorem dirsOnly_trans {fs1 fs2 fs3 : FS} (h12 : DirsOnly fs1 fs2)
    (h23 : DirsOnly fs2 fs3) : DirsOnly fs1 fs3 := by
  intro p
  rcases h23 p with h3 | ⟨hn2, hd3⟩
  · rcases h12 p with h2 | ⟨hn1, hd2⟩
    · exact Or.inl (h3.trans h2)
    · exact Or.inr ⟨hn1, h3.trans hd2⟩
  · rcases h12 p with h2 | ⟨hn1, hd2⟩
    · exact Or.inr ⟨h2.symm.trans hn2, hd3⟩
    · rw [hd2] at hn2
      exact absurd hn2 (by simp)

theorem dirsOnly_addMissingDirs (fs : FS) (qs : List FsPath) :
    DirsOnly fs (addMissingDirs fs qs) := by
  intro p
  cases h : fs.lookup p with
  | some e => exact Or.inl (lookup_addMissingDirs_of_some qs fs p e h)
  | none =>
    rw [lookup_addMissingDirs_of_none qs fs p h]
    by_cases hm : p ∈ qs
    · exact Or.inr ⟨rfl, by rw [if_pos hm]⟩
    · exact Or.inl (by rw [if_neg hm])

theorem dry_organize_file (env : Env) (org : Organizer) (h : org.dry_run = true)
    (fs : FS) (source destination : FsPath) :
    DirsOnly fs (organize_file env org fs source destination).1 := by
  unfold organize_file
  cases hx : extract_date env org fs source with
  | error msg => exact dirsOnly_refl fs
  | ok od =>
    cases od with
    | none => exact dirsOnly_refl fs
    | some date =>
      dsimp only
      cases hm : fs.mkdirParents (create_date_path destination date) with
      | error msg => exact dirsOnly_refl fs
      | ok fs1 =>
        have hD : DirsOnly fs fs1 := by
          rw [(mkdirParents_ok hm).1]
          exact dirsOnly_addMissingDirs fs _
        rw [h]
        dsimp only
        by_cases hp : fs1.pathExists
            (create_date_path destination date ++ [fileName source]) = true
        · rw [if_pos hp]
          exact hD
        · rw [if_neg hp, if_pos rfl]
          exact hD

theorem dry_organizeLoop (env : Env) (org : Organizer) (h : org.dry_run = true) :
    ∀ (fuel : Nat) (fs : FS) (task : Task) (destination : FsPath),
      DirsOnly fs (organizeLoop env org fuel fs task destination).1 := by
  intro fuel
  induction fuel with
  | zero => intro fs task dst; exact dirsOnly_refl fs
  | succ fuel ih =>
    intro fs task dst
    cases task with
    | dir source =>
      rw [organizeLoop]
      cases hr : organizeLoop env org fuel fs (Task.items (fs.childrenOf source)) dst with
      | mk fs1 r =>
        have h1 : DirsOnly fs fs1 := by
          have h2 := ih fs (Task.items (fs.childrenOf source)) dst
          rw [hr] at h2
          exact h2
        cases r with
        | error msg => exact h1
        | ok u =>
          cases u
          rw [h]
          simp only [Bool.not_true, Bool.and_false]
          rw [if_neg (by decide)]
          exact h1
    | items its =>
      cases its with
      | nil => exact dirsOnly_refl fs
      | cons item rest =>
        rw [organizeLoop]
        by_cases hf : fs.isFile item = true
        · rw [if_pos hf]
          cases hs : organize_file env org fs item dst with
          | mk fs1 r =>
            have h1 : DirsOnly fs fs1 := by
              have h2 := dry_organize_file env org h fs item dst
              rw [hs] at h2
              exact h2
            cases r with
            | error msg => exact h1
            | ok u =>
              cases u
              have h2 := ih fs1 (Task.items rest) dst
              exact dirsOnly_trans h1 h2
        · rw [if_neg hf]
          by_cases hdd : fs.isDir item = true
          · rw [if_pos hdd]
            cases hs : organizeLoop env org fuel fs (Task.dir item) dst with
            | mk fs1 r =>
              have h1 : DirsOnly fs fs1 := by
                have h2 := ih fs (Task.dir item) dst
                rw [hs] at h2
                exact h2
              cases r with
              | error msg => exact h1
              | ok u =>
                cases u
                have h2 := ih fs1 (Task.items rest) dst
                exact dirsOnly_trans h1 h2
          · rw [if_neg hdd]
            exact ih fs (Task.items rest) dst

theorem dry_organize (env : Env) (org : Organizer) (h : org.dry_run = true)
    (fuel : Nat) (fs : FS) (source destination : FsPath) :
    DirsOnly fs (organize env org fuel fs source destination).1 := by
  unfold organize
  by_cases hf : fs.isFile source = true
  · rw [if_pos hf]
    exact dry_organize_file env org h fs source destination
  · rw [if_neg hf]
    by_cases hd : fs.isDir source = true
    · rw [if_pos hd]
      exact dry_organizeLoop env org h fuel fs (Task.dir source) destination
    · rw [if_neg hd]
      exact dirsOnly_refl fs

/-! ## Decimal representation lemmas (for create_date_path) -/

theorem toDigitsCore_eq (fuel : Nat) : ∀ (n : Nat) (ds : List Char), n < fuel →
    Nat.toDigitsCore 10 fuel n ds =
      (if n = 0 then ['0']
       else ((Nat.digits 10 n).reverse).map Nat.digitChar) ++ ds := by
  induction fuel with
  | zero => intro n ds h; exact absurd h (Nat.not_lt_zero n)
  | succ fuel ih =>
    intro n ds h
    rw [Nat.toDigitsCore]
    by_cases hn' : n / 10 = 0
    · rw [if_pos hn']
      by_cases hn : n = 0
      · subst hn
        rw [if_pos rfl]
        rfl
      · rw [if_neg hn]
        have hlt : n < 10 := by omega
        rw [Nat.digits_of_lt 10 n hn hlt]
        rw [Nat.mod_eq_of_lt hlt]
        rfl
    · rw [if_neg hn']
      have hn : n ≠ 0 := by omega
      have h2 : n / 10 < fuel := by
        have hlt : n / 10 < n := Nat.div_lt_self (by omega) (by omega)
        omega
      rw [ih (n / 10) (Nat.digitChar (n % 10) :: ds) h2]
      rw [if_neg hn', if_neg hn]
      rw [Nat.digits_def' (by norm_num : (1 : ℕ) < 10) (Nat.pos_of_ne_zero hn)]
      rw [List.reverse_cons, List.map_append, List.append_assoc]
      rfl

theorem repr_eq_decimalStr (n : Nat) : Nat.repr n = decimalStr n := by
  show (Nat.toDigits 10 n).asString = decimalStr n
  rw [Nat.toDigits, toDigitsCore_eq (n + 1) n [] (Nat.lt_succ_self n)]
  by_cases hn : n = 0
  · subst hn
    rfl
  · rw [if_neg hn, List.append_nil]
    unfold decimalStr
    rw [if_neg hn]
    rfl

theorem decimalStr_head_ne_zero (n : Nat) (h : 0 < n) :
    (decimalStr n).data.head? ≠ some '0' := by
  unfold decimalStr
  rw [if_neg (by omega : ¬ n = 0)]
  have hne : Nat.digits 10 n ≠ [] := Nat.digits_ne_nil_iff_ne_zero.mpr (by omega)
  have hd0 : (Nat.digits 10 n).getLast hne ≠ 0 := Nat.getLast_digit_ne_zero 10 (by omega)
  have hdlt : (Nat.digits 10 n).getLast hne < 10 :=
    Nat.digits_lt_base (by norm_num) (List.getLast_mem hne)
  intro heq
  have heq1 : (((Nat.digits 10 n).reverse).map Nat.digitChar).head? = some '0' := heq
  rw [List.head?_map, List.head?_reverse,
      List.getLast?_eq_getLast_of_ne_nil hne] at heq1
  have heq2 : Nat.digitChar ((Nat.digits 10 n).getLast hne) = '0' := by
    simpa using heq1
  obtain ⟨d, hd⟩ : ∃ d, (Nat.digits 10 n).getLast hne = d := ⟨_, rfl⟩
  rw [hd] at hd0 hdlt heq2
  interval_cases d
  · exact hd0 rfl
  all_goals exact absurd heq2 (by decide)

/-! ## Lemmas about sha256_file and the digest format -/

theorem readLoop_eq (fuel : Nat) : ∀ (chunksize : Nat) (rem acc : List Nat),
    0 < chunksize → rem.length < fuel →
    readLoop fuel chunksize rem acc = acc ++ rem := by
  induction fuel with
  | zero => intro cs rem acc hcs h; exact absurd h (Nat.not_lt_zero _)
  | succ fuel ih =>
    intro cs rem acc hcs h
    rw [readLoop]
    cases rem with
    | nil =>
      rw [List.take_nil]
      simp [List.isEmpty]
    | cons b rest =>
      have htake : ((b :: rest).take cs).isEmpty = false := by
        cases cs with
        | zero => exact absurd hcs (by omega)
        | succ cs => simp [List.take, List.isEmpty]
      rw [htake, if_neg (by decide)]
      rw [ih cs ((b :: rest).drop cs) (acc ++ (b :: rest).take cs) hcs (by
        have hlen : ((b :: rest).drop cs).length = (b :: rest).length - cs := by
          simp
        have : 0 < cs := hcs
        simp only [hlen]
        simp only [List.length_cons] at h ⊢
        omega)]
      rw [List.append_assoc, List.take_append_drop]

theorem length_hexOfBytes (bs : List Nat) :
    (hexOfBytes bs).length = 2 * bs.length := by
  induction bs with
  | nil => rfl
  | cons b rest ih =>
    simp only [hexOfBytes, byteHex, List.length_append, List.length_cons, ih,
      List.length_nil, List.length_cons]
    omega

theorem mem_hexOfBytes {c : Char} {bs : List Nat} (h : c ∈ hexOfBytes bs) :
    c ∈ hexTable := by
  induction bs with
  | nil => exact absurd h (List.not_mem_nil c)
  | cons b rest ih =>
    rw [hexOfBytes] at h
    rcases List.mem_append.mp h with h1 | h2
    · have hlt16 : ∀ m : Nat, m % 16 < 16 := fun m => Nat.mod_lt m (by omega)
      have hmem : ∀ m : Nat, hexDigit m ∈ hexTable := by
        intro m
        unfold hexDigit
        have hm := hlt16 m
        obtain ⟨k, hk⟩ : ∃ k, m % 16 = k := ⟨_, rfl⟩
        rw [hk]
        rw [hk] at hm
        interval_cases k <;> decide
      simp only [byteHex, List.mem_cons, List.not_mem_nil, or_false] at h1
      rcases h1 with rfl | rfl
      · exact hmem _
      · exact hmem _
    · exact ih h2

theorem length_bytesOfState (st : Sha256State) :
    (bytesOfState st).length = 32 := rfl

/-! ## Claim theorems -/

/-- C10: for every readable file content and every positive chunk size,
`sha256_file` returns the lowercase hexadecimal SHA-256 digest of the
file's complete byte content, and the result is independent of the chunk
size used for streaming: the chunked computation equals a one-shot hash of
the whole content, is 64 characters long, and uses only the lowercase hex
alphabet. -/
theorem c10_sha256_file (content : List Nat) (chunksize : Nat)
    (h : 0 < chunksize) :
    sha256_file content chunksize = sha256Hex content ∧
    (sha256_file content chunksize).length = 64 ∧
    ∀ c ∈ (sha256_file content chunksize).data, c ∈ "0123456789abcdef".data := by
  have hread : readLoop (content.length + 1) chunksize content [] = content := by
    rw [readLoop_eq (content.length + 1) chunksize content [] h (Nat.lt_succ_self _)]
    exact List.nil_append content
  have heq : sha256_file content chunksize = sha256Hex content := by
    unfold sha256_file
    rw [hread]
  refine ⟨heq, ?_, ?_⟩
  · rw [heq]
    show (hexOfBytes (bytesOfState (sha256Words content))).length = 64
    rw [length_hexOfBytes, length_bytesOfState]
  · intro c hc
    rw [heq] at hc
    exact mem_hexOfBytes hc

theorem c10_sha256_file_witness :
    sha256_file [1, 2, 3] 2 = sha256Hex [1, 2, 3] :=
  (c10_sha256_file [1, 2, 3] 2 (by decide)).1

/-- C4: for every root path and calendar date, the computed destination
path is the root followed by the decimal strings of the year, month and
day, with month and day written without leading zeros. -/
theorem c4_create_date_path (root : FsPath) (d : Date)
    (hm1 : 1 ≤ d.month) (_hm2 : d.month ≤ 12) (hd1 : 1 ≤ d.day) (_hd2 : d.day ≤ 31) :
    create_date_path root d =
      root ++ [decimalStr d.year, decimalStr d.month, decimalStr d.day] ∧
    (decimalStr d.month).data.head? ≠ some '0' ∧
    (decimalStr d.day).data.head? ≠ some '0' :=
  ⟨by
    unfold create_date_path
    rw [repr_eq_decimalStr, repr_eq_decimalStr, repr_eq_decimalStr],
   decimalStr_head_ne_zero _ hm1, decimalStr_head_ne_zero _ hd1⟩

theorem c4_create_date_path_witness :
    create_date_path ["photos"] ⟨2021, 6, 13⟩ =
      ["photos"] ++ [decimalStr 2021, decimalStr 6, decimalStr 13] ∧
    (decimalStr 6).data.head? ≠ some '0' ∧
    (decimalStr 13).data.head? ≠ some '0' :=
  c4_create_date_path ["photos"] ⟨2021, 6, 13⟩ (by decide) (by decide)
    (by decide) (by decide)

/-- C5: `verify_copy` checks its preconditions before performing any
write: a source that is not an existing regular file fails with "Source
must be a file", and a destination that is an existing directory fails
with "Destination may not be a directory"; in both cases the returned
filesystem is exactly the input one, so no partial write occurred. -/
theorem c5_preconditions (fs : FS) (source destination : FsPath) :
    (fs.isFile source = false →
      verify_copy fs source destination = (fs, .error "Source must be a file")) ∧
    (fs.isFile source = true → fs.isDir destination = true →
      verify_copy fs source destination =
        (fs, .error "Destination may not be a directory")) := by
  constructor
  · intro h
    unfold verify_copy verify_copy_with
    rw [h, if_pos rfl]
  · intro h1 h2
    unfold verify_copy verify_copy_with
    rw [h1, if_neg (by decide), h2, if_pos rfl]

theorem c5_preconditions_witness :
    verify_copy ⟨[(["d"], Entry.dir)]⟩ ["s"] ["x"] =
      (⟨[(["d"], Entry.dir)]⟩, .error "Source must be a file") ∧
    verify_copy ⟨[(["s"], Entry.file [1]), (["d"], Entry.dir)]⟩ ["s"] ["d"] =
      (⟨[(["s"], Entry.file [1]), (["d"], Entry.dir)]⟩,
        .error "Destination may not be a directory") :=
  ⟨(c5_preconditions _ _ _).1 (by decide),
   (c5_preconditions _ _ _).2 (by decide) (by decide)⟩

/-- C9: whatever the outcome, `verify_copy` leaves every path other than
the destination untouched; in particular the source file is never
modified or deleted (the source and destination arguments being distinct
paths). -/
theorem c9_frame (fs : FS) (source destination p : FsPath) (copied : List Nat)
    (hp : p ≠ destination) :
    ((verify_copy_with fs source destination copied).1).lookup p = fs.lookup p := by
  unfold verify_copy_with
  by_cases h1 : fs.isFile source = false
  · rw [if_pos h1]
  · rw [if_neg h1]
    by_cases h2 : fs.isDir destination = true
    · rw [if_pos h2]
    · rw [if_neg h2]
      dsimp only
      have hw : (fs.write destination (Entry.file copied)).lookup p = fs.lookup p := by
        rw [lookup_write, if_neg (fun hh => hp hh.symm)]
      by_cases h3 : sha256Hex (fs.contentOf source) ≠
          sha256Hex ((fs.write destination (Entry.file copied)).contentOf destination)
      · rw [if_pos h3]
        by_cases h4 : (fs.write destination (Entry.file copied)).isFile destination = true
        · rw [if_pos h4]
          dsimp only
          rw [lookup_unlink, if_neg (fun hh => hp hh.symm)]
          exact hw
        · rw [if_neg h4]
          exact hw
      · rw [if_neg h3]
        exact hw

theorem c9_frame_witness :
    ((verify_copy_with ⟨[(["s"], Entry.file [1])]⟩ ["s"] ["d"] [2]).1).lookup ["s"] =
      (FS.mk [(["s"], Entry.file [1])]).lookup ["s"] :=
  c9_frame ⟨[(["s"], Entry.file [1])]⟩ ["s"] ["d"] ["s"] [2] (by decide)

/-- C2: when the digest of the copied destination bytes differs from the
digest of the source, `verify_copy` deletes the just-written destination
file and then fails with the "contents did not match" error; the failure
is returned, never swallowed, and afterwards no entry exists at the
destination. -/
theorem c2_hash_mismatch_cleanup (fs : FS) (source destination : FsPath)
    (copied : List Nat)
    (hs : fs.isFile source = true) (hd : fs.isDir destination = false)
    (hne : sha256Hex (fs.contentOf source) ≠ sha256Hex copied) :
    verify_copy_with fs source destination copied =
      ((fs.write destination (Entry.file copied)).unlink destination,
        .error "Source' and destination's contents did not match!") ∧
    ((verify_copy_with fs source destination copied).1).lookup destination = none := by
  have hcontent : (fs.write destination (Entry.file copied)).contentOf destination
      = copied := by
    unfold FS.contentOf
    rw [lookup_write, if_pos rfl]
  have hfile : (fs.write destination (Entry.file copied)).isFile destination = true := by
    unfold FS.isFile
    rw [lookup_write, if_pos rfl]
  have hres : verify_copy_with fs source destination copied =
      ((fs.write destination (Entry.file copied)).unlink destination,
        .error "Source' and destination's contents did not match!") := by
    unfold verify_copy_with
    rw [hs, if_neg (by decide), hd, if_neg (by decide)]
    dsimp only
    rw [hcontent, if_pos hne, if_pos hfile]
  refine ⟨hres, ?_⟩
  rw [hres]
  dsimp only
  rw [lookup_unlink, if_pos rfl]

theorem c2_hash_mismatch_cleanup_witness :
    verify_copy_with ⟨[(["s"], Entry.file [1])]⟩ ["s"] ["d"] [] =
      (((FS.mk [(["s"], Entry.file [1])]).write ["d"] (Entry.file [])).unlink ["d"],
        .error "Source' and destination's contents did not match!") :=
  (c2_hash_mismatch_cleanup ⟨[(["s"], Entry.file [1])]⟩ ["s"] ["d"] []
    (by decide) (by decide) (by decide)).1

/-- C3: chain evaluation tries the extractors left-to-right and returns
the first non-None extraction, never invoking any later extractor (the
call count of a chain whose head succeeds is one, whatever a different
second extractor would return); if every extractor returns None the chain
returns None, and a file whose chain returned None is skipped without
error by the organizer. -/
theorem c3_chain_first_wins (fs : FS) (p : FsPath) :
    (∀ es : List Extractor, (∀ e ∈ es, e fs p = .ok none) →
      extract_file_date es fs p = .ok none) ∧
    (∀ (pre : List Extractor) (e : Extractor) (rest : List Extractor) (d1 : Date),
      (∀ e' ∈ pre, e' fs p = .ok none) → e fs p = .ok (some d1) →
      extract_file_date (pre ++ e :: rest) fs p = .ok (some d1) ∧
      extract_file_date_calls (pre ++ e :: rest) fs p = pre.length + 1) ∧
    (∀ (env : Env) (org : Organizer) (src dst : FsPath) (fs0 : FS),
      extract_date env org fs0 src = .ok none →
      organize_file env org fs0 src dst = (fs0, .ok ())) := by
  refine ⟨?_, ?_, ?_⟩
  · intro es h
    induction es with
    | nil => rfl
    | cons e rest ih =>
      rw [extract_file_date, h e (List.mem_cons_self e rest)]
      exact ih fun e' he' => h e' (List.mem_cons_of_mem e he')
  · intro pre e rest d1 hpre he
    induction pre with
    | nil =>
      rw [List.nil_append]
      constructor
      · rw [extract_file_date, he]
      · rw [extract_file_date_calls, he]
        rfl
    | cons e0 pre ih =>
      have h0 : e0 fs p = .ok none := hpre e0 (List.mem_cons_self e0 pre)
      obtain ⟨ih1, ih2⟩ := ih fun e' h => hpre e' (List.mem_cons_of_mem e0 h)
      constructor
      · rw [List.cons_append, extract_file_date, h0]
        exact ih1
      · rw [List.cons_append, extract_file_date_calls, h0, ih2]
        simp only [List.length_cons]
        omega
  · intro env org src dst fs0 h
    unfold organize_file
    rw [h]

theorem c3_chain_first_wins_witness :
    extract_file_date [fun _ _ => Except.ok none] ⟨[]⟩ ["x"] = .ok none ∧
    (extract_file_date
        ([fun _ _ => Except.ok none] ++
          (fun _ _ => Except.ok (some ⟨2020, 5, 1⟩)) ::
            [fun _ _ => Except.ok (some ⟨1999, 1, 2⟩)]) ⟨[]⟩ ["x"] =
        .ok (some ⟨2020, 5, 1⟩) ∧
      extract_file_date_calls
        ([fun _ _ => Except.ok none] ++
          (fun _ _ => Except.ok (some ⟨2020, 5, 1⟩)) ::
            [fun _ _ => Except.ok (some ⟨1999, 1, 2⟩)]) ⟨[]⟩ ["x"] = 2) ∧
    organize_file ⟨fun _ => "text/plain"⟩ ⟨[], [], false, false⟩ ⟨[]⟩ ["x"] ["dst"] =
      (⟨[]⟩, .ok ()) :=
  ⟨(c3_chain_first_wins ⟨[]⟩ ["x"]).1 [fun _ _ => Except.ok none] (by
      intro e he
      simp only [List.mem_singleton] at he
      subst he
      rfl),
   (c3_chain_first_wins ⟨[]⟩ ["x"]).2.1 [fun _ _ => Except.ok none] _
     [fun _ _ => Except.ok (some ⟨1999, 1, 2⟩)] ⟨2020, 5, 1⟩ (by
      intro e he
      simp only [List.mem_singleton] at he
      subst he
      rfl) rfl,
   (c3_chain_first_wins ⟨[]⟩ ["x"]).2.2 ⟨fun _ => "text/plain"⟩
     ⟨[], [], false, false⟩ ["x"] ["dst"] ⟨[]⟩ (by decide)⟩

/-- C6: a filename-pattern extractor returns None when the filename does
not match the pattern; when the filename matches but the captured text
fails to parse under the configured format, the failure is logged and the
extractor returns None when `ignore_errors` is set, and the failure
propagates when it is not. -/
theorem c6_regex_extractor (e : RegexExtractor) (fname : String) :
    (e.matchGroup fname = none → e.extract fname = (.ok none, false)) ∧
    (∀ s msg, e.matchGroup fname = some s → e.parseFmt s = .error msg →
      (e.ignore_errors = true → e.extract fname = (.ok none, true)) ∧
      (e.ignore_errors = false → e.extract fname = (.error msg, true))) := by
  constructor
  · intro h
    unfold RegexExtractor.extract
    rw [h]
  · intro s msg h1 h2
    constructor
    · intro hig
      simp [RegexExtractor.extract, h1, h2, hig]
    · intro hig
      simp [RegexExtractor.extract, h1, h2, hig]

theorem c6_regex_extractor_witness :
    RegexExtractor.extract
      ⟨fun n => if n = "IMG-x-WA0.jpg" then some "x" else none,
       fun _ => Except.error "ValueError", true⟩ "other.png" = (.ok none, false) ∧
    RegexExtractor.extract
      ⟨fun n => if n = "IMG-x-WA0.jpg" then some "x" else none,
       fun _ => Except.error "ValueError", true⟩ "IMG-x-WA0.jpg" = (.ok none, true) ∧
    RegexExtractor.extract
      ⟨fun n => if n = "IMG-x-WA0.jpg" then some "x" else none,
       fun _ => Except.error "ValueError", false⟩ "IMG-x-WA0.jpg" =
      (.error "ValueError", true) :=
  ⟨(c6_regex_extractor _ _).1 (by decide),
   ((c6_regex_extractor _ "IMG-x-WA0.jpg").2 "x" "ValueError" (by decide)
      (by decide)).1 rfl,
   ((c6_regex_extractor _ "IMG-x-WA0.jpg").2 "x" "ValueError" (by decide)
      (by decide)).2 rfl⟩

/-- C7 counterexample: when the EXIF block is present and its stored date
value is malformed, `ExifImageExtractor.extract` propagates the parse
failure rather than returning None — the claim that malformed stored date
values degrade to None is false on the code, which has no handler around
the parse call. -/
theorem c7_counterexample :
    ExifImageExtractor.extract (fun _ => Except.error "ParserError")
        ⟨true, some "not a date"⟩ = Except.error "ParserError" ∧
    ExifImageExtractor.extract (fun _ => Except.error "ParserError")
        ⟨true, some "not a date"⟩ ≠ Except.ok none := by
  exact ⟨rfl, by decide⟩

/-- C7 amended: for a readable image, an absent metadata block or an
absent creation-date field degrades to None; a present but well-formed
date value is parsed and returned; a present but malformed date value
makes the parse failure propagate out of extract. -/
theorem c7_exif_amended (parseDate : String → Except String Date) (img : ExifImage) :
    (img.has_exif = false → ExifImageExtractor.extract parseDate img = .ok none) ∧
    (img.dateField = none → ExifImageExtractor.extract parseDate img = .ok none) ∧
    (∀ v d, img.has_exif = true → img.dateField = some v → parseDate v = .ok d →
      ExifImageExtractor.extract parseDate img = .ok (some d)) ∧
    (∀ v msg, img.has_exif = true → img.dateField = some v →
      parseDate v = .error msg →
      ExifImageExtractor.extract parseDate img = .error msg) := by
  refine ⟨?_, ?_, ?_, ?_⟩
  · intro h
    simp [ExifImageExtractor.extract, h]
  · intro h
    by_cases hh : img.has_exif = true <;>
      simp [ExifImageExtractor.extract, h, hh]
  · intro v d h1 h2 h3
    simp [ExifImageExtractor.extract, h1, h2, h3]
  · intro v msg h1 h2 h3
    simp [ExifImageExtractor.extract, h1, h2, h3]

theorem c7_exif_amended_witness :
    ExifImageExtractor.extract (fun _ => Except.ok ⟨2018, 8, 17⟩)
      ⟨false, none⟩ = .ok none ∧
    ExifImageExtractor.extract (fun _ => Except.ok ⟨2018, 8, 17⟩)
      ⟨true, none⟩ = .ok none ∧
    ExifImageExtractor.extract (fun _ => Except.ok ⟨2018, 8, 17⟩)
      ⟨true, some "2018:08:17 10:00:00"⟩ = .ok (some ⟨2018, 8, 17⟩) :=
  ⟨(c7_exif_amended _ _).1 rfl,
   (c7_exif_amended _ _).2.1 rfl,
   (c7_exif_amended _ _).2.2.1 "2018:08:17 10:00:00" ⟨2018, 8, 17⟩ rfl rfl rfl⟩

/-- C1 counterexample: a dry run is not mutation-free.  Organizing a
single image file with an extractable date in dry-run mode creates the
destination date directories, because the code calls mkdir before its
dry-run early return: here `dst/2020/1/1` does not exist beforehand and
is a directory afterwards. -/
theorem c1_counterexample :
    ((organize ⟨fun _ => "image/jpeg"⟩
        (Organizer.init [fun _ _ => Except.ok (some ⟨2020, 1, 1⟩)] [] true true) 5
        ⟨[(["src"], Entry.dir), (["src", "a.jpg"], Entry.file [7])]⟩
        ["src", "a.jpg"] ["dst"]).1).lookup ["dst", "2020", "1", "1"] =
      some Entry.dir ∧
    (FS.mk [(["src"], Entry.dir), (["src", "a.jpg"], Entry.file [7])]).lookup
      ["dst", "2020", "1", "1"] = none := by
  exact ⟨by decide, by decide⟩

/-- C1 amended: running `organize` through an organizer constructed with
`dry_run` set performs no deletion and no file creation or modification
anywhere — in particular zero deletions under the source — and the only
mutation it may perform is creating directories (the destination date
directories and their missing ancestors, created by mkdir before the
dry-run check); `remove_source` is forced off regardless of the caller's
request. -/
theorem c1_dry_run_dirs_only (image_extractors video_extractors : List Extractor)
    (rs : Bool) (env : Env) (fuel : Nat) (fs : FS)
    (source destination : FsPath) :
    DirsOnly fs ((organize env
        (Organizer.init image_extractors video_extractors true rs)
        fuel fs source destination).1) ∧
    (Organizer.init image_extractors video_extractors true rs).remove_source
      = false :=
  ⟨dry_organize env _ rfl fuel fs source destination, rfl⟩

/-- C8: organizing a single image file whose date is determinable into a
destination where the computed slot is free copies it to exactly
`destination/year/month/day/<original-name>` (every other path keeps its
previous entry or gains only a date directory), succeeds, and running the
identical organize a second time returns the filesystem unchanged with a
skip (the same-named file at the destination is detected and no overwrite
occurs). -/
theorem c8_idempotent (env : Env) (org : Organizer) (fuel fuel2 : Nat) (fs : FS)
    (source destination : FsPath) (c : List Nat) (d : Date)
    (hdry : org.dry_run = false) (hrm : org.remove_source = false)
    (hsrc : fs.lookup source = some (Entry.file c))
    (hex : extract_date env org fs source = .ok (some d))
    (hpre : ∀ q ∈ pathInits (create_date_path destination d), fs.isFile q = false)
    (hfree : fs.lookup (create_date_path destination d ++ [fileName source]) = none)
    (hex2 : extract_date env org (organize env org fuel fs source destination).1
      source = .ok (some d)) :
    (organize env org fuel fs source destination).2 = .ok () ∧
    ((organize env org fuel fs source destination).1).lookup
        (create_date_path destination d ++ [fileName source]) =
      some (Entry.file c) ∧
    (∀ p, p ≠ create_date_path destination d ++ [fileName source] →
      ((organize env org fuel fs source destination).1).lookup p = fs.lookup p ∨
        (fs.lookup p = none ∧
          ((organize env org fuel fs source destination).1).lookup p =
            some Entry.dir)) ∧
    organize env org fuel2 (organize env org fuel fs source destination).1
        source destination =
      ((organize env org fuel fs source destination).1, .ok ()) := by
  have hisf : fs.isFile source = true := by
    unfold FS.isFile
    rw [hsrc]
  have hany : (pathInits (create_date_path destination d)).any fs.isFile = false := by
    rw [List.any_eq_false]
    intro q hq
    rw [hpre q hq]
    exact Bool.false_ne_true
  have hmk : fs.mkdirParents (create_date_path destination d) =
      .ok (addMissingDirs fs (pathInits (create_date_path destination d))) := by
    unfold FS.mkdirParents
    rw [hany, if_neg (by decide)]
  have hqne : ∀ q ∈ pathInits (create_date_path destination d),
      q ≠ create_date_path destination d ++ [fileName source] := by
    intro q hq heq
    have hlen := mem_pathInits_length hq
    rw [heq] at hlen
    simp only [List.length_append, List.length_cons, List.length_nil] at hlen
    omega
  have hfs1dp : (addMissingDirs fs (pathInits (create_date_path destination d))).lookup
      (create_date_path destination d ++ [fileName source]) = none := by
    rw [lookup_addMissingDirs_of_none _ fs _ hfree]
    rw [if_neg (fun hm => hqne _ hm rfl)]
  have hfs1src : (addMissingDirs fs (pathInits (create_date_path destination d))).lookup
      source = some (Entry.file c) :=
    lookup_addMissingDirs_of_some _ fs source _ hsrc
  have hfs1exists : (addMissingDirs fs
      (pathInits (create_date_path destination d))).pathExists
      (create_date_path destination d ++ [fileName source]) = false := by
    unfold FS.pathExists
    rw [hfs1dp]
    rfl
  have hfs1isfile : (addMissingDirs fs
      (pathInits (create_date_path destination d))).isFile source = true := by
    unfold FS.isFile
    rw [hfs1src]
  have hfs1isdir : (addMissingDirs fs
      (pathInits (create_date_path destination d))).isDir
      (create_date_path destination d ++ [fileName source]) = false := by
    unfold FS.isDir
    rw [hfs1dp]
  have hfs1content : (addMissingDirs fs
      (pathInits (create_date_path destination d))).contentOf source = c := by
    unfold FS.contentOf
    rw [hfs1src]
  have hvc : verify_copy (addMissingDirs fs (pathInits (create_date_path destination d)))
      source (create_date_path destination d ++ [fileName source]) =
      ((addMissingDirs fs (pathInits (create_date_path destination d))).write
        (create_date_path destination d ++ [fileName source]) (Entry.file c),
        .ok ()) := by
    unfold verify_copy verify_copy_with
    rw [hfs1isfile, if_neg (by decide), hfs1isdir, if_neg (by decide)]
    dsimp only
    rw [hfs1content]
    have hc2 : ((addMissingDirs fs
        (pathInits (create_date_path destination d))).write
        (create_date_path destination d ++ [fileName source])
        (Entry.file c)).contentOf
        (create_date_path destination d ++ [fileName source]) = c := by
      unfold FS.contentOf
      rw [lookup_write, if_pos rfl]
    rw [hc2, if_neg (fun h => h rfl)]
  have hof : organize_file env org fs source destination =
      ((addMissingDirs fs (pathInits (create_date_path destination d))).write
        (create_date_path destination d ++ [fileName source]) (Entry.file c),
        .ok ()) := by
    unfold organize_file
    rw [hex]
    dsimp only
    rw [hmk]
    dsimp only
    rw [hfs1exists, if_neg (by decide), hdry, if_neg (by decide), hvc]
    dsimp only
    rw [hrm, Bool.false_and, if_neg (by decide)]
  have ho : organize env org fuel fs source destination =
      ((addMissingDirs fs (pathInits (create_date_path destination d))).write
        (create_date_path destination d ++ [fileName source]) (Entry.file c),
        .ok ()) := by
    unfold organize
    rw [hisf, if_pos rfl]
    exact hof
  rw [ho] at hex2 ⊢
  dsimp only at hex2 ⊢
  have hsrc_ne_dp : source ≠ create_date_path destination d ++ [fileName source] := by
    intro h
    rw [h, hfree] at hsrc
    exact Option.noConfusion hsrc
  have hfs2src : ((addMissingDirs fs (pathInits (create_date_path destination d))).write
      (create_date_path destination d ++ [fileName source])
      (Entry.file c)).lookup source = some (Entry.file c) := by
    rw [lookup_write, if_neg (fun hh => hsrc_ne_dp hh.symm)]
    exact hfs1src
  have hfs2isfile : ((addMissingDirs fs (pathInits (create_date_path destination d))).write
      (create_date_path destination d ++ [fileName source])
      (Entry.file c)).isFile source = true := by
    unfold FS.isFile
    rw [hfs2src]
  have hfs2q : ∀ q ∈ pathInits (create_date_path destination d),
      ((addMissingDirs fs (pathInits (create_date_path destination d))).write
        (create_date_path destination d ++ [fileName source])
        (Entry.file c)).lookup q =
      (addMissingDirs fs (pathInits (create_date_path destination d))).lookup q := by
    intro q hq
    rw [lookup_write, if_neg (fun hh => hqne q hq hh.symm)]
  refine ⟨rfl, by rw [lookup_write, if_pos rfl], ?_, ?_⟩
  · intro p hp
    rw [lookup_write, if_neg (fun hh => hp hh.symm)]
    cases hl : fs.lookup p with
    | some e =>
      exact Or.inl (lookup_addMissingDirs_of_some _ fs p e hl)
    | none =>
      rw [lookup_addMissingDirs_of_none _ fs p hl]
      by_cases hm : p ∈ pathInits (create_date_path destination d)
      · exact Or.inr ⟨rfl, by rw [if_pos hm]⟩
      · exact Or.inl (by rw [if_neg hm])
  · have hfs2q_notfile : ∀ q ∈ pathInits (create_date_path destination d),
        ((addMissingDirs fs (pathInits (create_date_path destination d))).write
          (create_date_path destination d ++ [fileName source])
          (Entry.file c)).isFile q = false := by
      intro q hq
      unfold FS.isFile
      rw [hfs2q q hq]
      cases hl : fs.lookup q with
      | some e =>
        rw [lookup_addMissingDirs_of_some _ fs q e hl]
        cases e with
        | file cc =>
          have hq2 := hpre q hq
          unfold FS.isFile at hq2
          rw [hl] at hq2
          exact Bool.noConfusion (show true = false from hq2)
        | dir => rfl
      | none =>
        rw [lookup_addMissingDirs_of_none _ fs q hl, if_pos hq]
    have hfs2qs_some : ∀ q ∈ pathInits (create_date_path destination d),
        (((addMissingDirs fs (pathInits (create_date_path destination d))).write
          (create_date_path destination d ++ [fileName source])
          (Entry.file c)).lookup q).isSome := by
      intro q hq
      rw [hfs2q q hq]
      exact lookup_addMissingDirs_isSome _ fs q hq
    have hmk2 : ((addMissingDirs fs (pathInits (create_date_path destination d))).write
        (create_date_path destination d ++ [fileName source])
        (Entry.file c)).mkdirParents (create_date_path destination d) =
        .ok ((addMissingDirs fs (pathInits (create_date_path destination d))).write
          (create_date_path destination d ++ [fileName source]) (Entry.file c)) := by
      unfold FS.mkdirParents
      have hany2 : (pathInits (create_date_path destination d)).any
          ((addMissingDirs fs (pathInits (create_date_path destination d))).write
            (create_date_path destination d ++ [fileName source])
            (Entry.file c)).isFile = false := by
        rw [List.any_eq_false]
        intro q hq
        rw [hfs2q_notfile q hq]
        exact Bool.false_ne_true
      rw [hany2, if_neg (by decide), addMissingDirs_of_allSome _ _ hfs2qs_some]
    have hfs2exists : ((addMissingDirs fs
        (pathInits (create_date_path destination d))).write
        (create_date_path destination d ++ [fileName source])
        (Entry.file c)).pathExists
        (create_date_path destination d ++ [fileName source]) = true := by
      unfold FS.pathExists
      rw [lookup_write, if_pos rfl]
      rfl
    unfold organize
    rw [hfs2isfile, if_pos rfl]
    unfold organize_file
    rw [hex2]
    dsimp only
    rw [hmk2]
    dsimp only
    rw [hfs2exists, if_pos rfl]

theorem c8_idempotent_witness :
    ((organize ⟨fun _ => "image/jpeg"⟩
        ⟨[fun _ _ => Except.ok (some ⟨2021, 6, 13⟩)], [], false, false⟩ 3
        ⟨[(["src"], Entry.dir), (["src", "a.jpg"], Entry.file [9])]⟩
        ["src", "a.jpg"] ["dst"]).1).lookup
      (create_date_path ["dst"] ⟨2021, 6, 13⟩ ++ [fileName ["src", "a.jpg"]]) =
      some (Entry.file [9]) :=
  (c8_idempotent ⟨fun _ => "image/jpeg"⟩
    ⟨[fun _ _ => Except.ok (some ⟨2021, 6, 13⟩)], [], false, false⟩ 3 3
    ⟨[(["src"], Entry.dir), (["src", "a.jpg"], Entry.file [9])]⟩
    ["src", "a.jpg"] ["dst"] [9] ⟨2021, 6, 13⟩
    rfl rfl (by decide) (by decide) (by decide) (by decide) (by decide)).2.1

end ImageDateOrganizer
